import Mathlib

/-!
Verification of the strongswan openssl EC public key plugin
(src/libstrongswan/plugins/openssl/openssl_ec_public_key.c) against its
natural-language specification.

The file shallowly embeds the C source.  Native OpenSSL primitives
(ECDSA_do_verify, d2i_ECDSA_SIG, d2i_EC_PUBKEY, i2o_ECPublicKey,
i2d_EC_PUBKEY, openssl_hash_chunk, hasher creation) are external
collaborators and are modelled as parameters collected in `OpenSSLEnv`;
theorems quantify over them.  Byte buffers (chunk_t) are `List Nat`.
Library facilities of this repository that are not part of the source file
(openssl_bn_split, the key_encoding fingerprint cache, builder_cancel,
ref_get/ref_put) are modelled from the specification and marked as such in
their doc comments.
-/

namespace StrongswanEC

/-- EC_GROUP: the only observable the source uses is the field degree,
through the EC_FIELD_ELEMENT_LEN macro. -/
structure ECGroup where
  degree : Nat
deriving DecidableEq, Repr

/-- EC_KEY: an opaque native key.  `ptrId` stands for the pointer identity
used as the fingerprint-cache key; `group` is what EC_KEY_get0_group
returns. -/
structure ECKey where
  ptrId : Nat
  group : ECGroup
deriving DecidableEq, Repr

/-- EC_KEY_get0_group. -/
def EC_KEY_get0_group (ec : ECKey) : ECGroup :=
  ec.group

/-- EC_FIELD_ELEMENT_LEN(group): byte length of a field element,
(degree + 7) / 8. -/
def EC_FIELD_ELEMENT_LEN (group : ECGroup) : Nat :=
  (group.degree + 7) / 8

/-- OpenSSL NID for the null hash (NID_undef). -/
def NID_undef : Nat := 0

/-- OpenSSL NID for SHA-1. -/
def NID_sha1 : Nat := 64

/-- OpenSSL NID for SHA-256. -/
def NID_sha256 : Nat := 672

/-- OpenSSL NID for SHA-384. -/
def NID_sha384 : Nat := 673

/-- OpenSSL NID for SHA-512. -/
def NID_sha512 : Nat := 674

/-- External native primitives consumed by the plugin.  Each field models
one OpenSSL / libstrongswan collaborator; theorems hold for every
instantiation. -/
structure OpenSSLEnv where
  /-- openssl_hash_chunk(nid, data): computes a digest, may fail. -/
  hashChunk : Nat → List Nat → Option (List Nat)
  /-- ECDSA_do_verify(hash, sig(r, s), key) == 1, per key. -/
  ecdsaVerify : ECKey → List Nat → Nat → Nat → Bool
  /-- d2i_ECDSA_SIG: DER decode of SEQUENCE of INTEGER r and INTEGER s. -/
  d2i_ECDSA_SIG : List Nat → Option (Nat × Nat)
  /-- d2i_EC_PUBKEY: DER SubjectPublicKeyInfo decode of an EC key. -/
  d2i_EC_PUBKEY : List Nat → Option ECKey
  /-- i2o_ECPublicKey: raw EC point octet encoding of a key. -/
  i2o_ECPublicKey : ECKey → List Nat
  /-- i2d_EC_PUBKEY: DER SubjectPublicKeyInfo encoding of a key. -/
  i2d_EC_PUBKEY : ECKey → List Nat
  /-- lib->crypto->create_hasher(HASH_SHA1): none when SHA-1 is
  unavailable, otherwise the (deterministic) hash function. -/
  create_hasher : Option (List Nat → List Nat)

/-- Big-endian unsigned integer value of a byte string (BN_bin2bn). -/
def beNat (bytes : List Nat) : Nat :=
  bytes.foldl (fun acc b => 256 * acc + b) 0

/-- Modelled from the spec: openssl_bn_split (openssl_util.c, a file of
this repository not under src/).  The spec's algorithm for the
concatenated form reads: split the signature buffer exactly in half; each
half is a big-endian unsigned integer component; reject if the length is
not even.  The call site in src passes only the chunk and the two
component slots, so no field-length information reaches this function and
no field-size check can occur here. -/
def openssl_bn_split (chunk : List Nat) : Option (Nat × Nat) :=
  if chunk.length % 2 ≠ 0 then
    none
  else
    some (beNat (chunk.take (chunk.length / 2)),
          beNat (chunk.drop (chunk.length / 2)))

/-- chunk2sig: convert a chunk holding r and s concatenated into signature
components.  The `group` argument is received but not used by the source
body, which is just a call to openssl_bn_split. -/
def chunk2sig (group : ECGroup) (chunk : List Nat) : Option (Nat × Nat) :=
  openssl_bn_split chunk

/-- verify_signature: verification of a signature as in RFC 4754.  When
hash_type is NID_undef the data is used as the digest unchanged, otherwise
openssl_hash_chunk computes it; the signature chunk is split by chunk2sig
and handed to ECDSA_do_verify.  Any failure yields false. -/
def verify_signature (env : OpenSSLEnv) (ec : ECKey) (hash_type : Nat)
    (data signature : List Nat) : Bool :=
  match (if hash_type = NID_undef then some data
         else env.hashChunk hash_type data) with
  | none => false
  | some hash =>
    match chunk2sig (EC_KEY_get0_group ec) signature with
    | none => false
    | some rs => env.ecdsaVerify ec hash rs.1 rs.2

/-- Strip leading zero bytes, as the while loop of
verify_default_signature does on the signature chunk. -/
def stripZeros : List Nat → List Nat
  | [] => []
  | b :: rest => if b = 0 then stripZeros rest else b :: rest

/-- verify_default_signature: verification of the default (legacy)
signature using SHA-1.  Leading zero bytes are removed from the signature,
the rest is DER-decoded by d2i_ECDSA_SIG, the data is hashed with SHA-1
and the result handed to ECDSA_do_verify.  Any failure yields false. -/
def verify_default_signature (env : OpenSSLEnv) (ec : ECKey)
    (data signature : List Nat) : Bool :=
  match env.d2i_ECDSA_SIG (stripZeros signature) with
  | none => false
  | some rs =>
    match env.hashChunk NID_sha1 data with
    | none => false
    | some hash => env.ecdsaVerify ec hash rs.1 rs.2

/-- signature_scheme_t: the five ECDSA schemes the plugin dispatches on,
plus a constructor standing for every other enum value (which the source
handles in the default branch). -/
inductive SignatureScheme where
  | SIGN_ECDSA_WITH_NULL
  | SIGN_ECDSA_WITH_SHA1
  | SIGN_ECDSA_256
  | SIGN_ECDSA_384
  | SIGN_ECDSA_521
  | otherScheme (code : Nat)
deriving DecidableEq, Repr

/-- Whether a scheme is one of the five ECDSA schemes the switch in verify
recognizes. -/
def isSupportedScheme : SignatureScheme → Bool
  | .SIGN_ECDSA_WITH_NULL => true
  | .SIGN_ECDSA_WITH_SHA1 => true
  | .SIGN_ECDSA_256 => true
  | .SIGN_ECDSA_384 => true
  | .SIGN_ECDSA_521 => true
  | .otherScheme _ => false

/-- The hash NID verify passes to verify_signature for the raw
(RFC 4754 concatenated) schemes; none for the legacy scheme and for
unrecognized schemes. -/
def rawNid : SignatureScheme → Option Nat
  | .SIGN_ECDSA_WITH_NULL => some NID_undef
  | .SIGN_ECDSA_256 => some NID_sha256
  | .SIGN_ECDSA_384 => some NID_sha384
  | .SIGN_ECDSA_521 => some NID_sha512
  | _ => none

/-- The DBG1 diagnostic emitted on the default branch of verify. -/
def verifyDiagMsg : String :=
  "signature scheme %N not supported in EC"

/-- public_key_t.verify: scheme dispatch.  The second component collects
the DBG1 diagnostics emitted by the call (empty on all recognized-scheme
paths). -/
def verify (env : OpenSSLEnv) (ec : ECKey) (scheme : SignatureScheme)
    (data signature : List Nat) : Bool × List String :=
  match scheme with
  | .SIGN_ECDSA_WITH_NULL =>
      (verify_signature env ec NID_undef data signature, [])
  | .SIGN_ECDSA_WITH_SHA1 =>
      (verify_default_signature env ec data signature, [])
  | .SIGN_ECDSA_256 =>
      (verify_signature env ec NID_sha256 data signature, [])
  | .SIGN_ECDSA_384 =>
      (verify_signature env ec NID_sha384 data signature, [])
  | .SIGN_ECDSA_521 =>
      (verify_signature env ec NID_sha512 data signature, [])
  | .otherScheme _ =>
      (false, [verifyDiagMsg])

/-- public_key_t.get_keysize: bytes of a field element of the key's
curve. -/
def get_keysize (ec : ECKey) : Nat :=
  EC_FIELD_ELEMENT_LEN (EC_KEY_get0_group ec)

/-- key_encoding_type_t: the three variants this plugin handles, plus a
constructor standing for every other enum value. -/
inductive EncodingType where
  | KEY_ID_PUBKEY_SHA1
  | KEY_ID_PUBKEY_INFO_SHA1
  | KEY_PUB_SPKI_ASN1_DER
  | otherEncoding (code : Nat)
deriving DecidableEq, Repr

/-- The process-wide fingerprint cache: entries (type, key identity,
bytes). -/
abbrev Cache := List (EncodingType × Nat × List Nat)

/-- Modelled from the spec: lib->encoding->get_cache (key_encoding.c, a
file of this repository not under src/): look up the bytes cached for a
(type, identity) pair. -/
def cacheGet : Cache → EncodingType → Nat → Option (List Nat)
  | [], _, _ => none
  | e :: rest, t, id =>
    if e.1 = t ∧ e.2.1 = id then some e.2.2 else cacheGet rest t id

/-- Modelled from the spec: lib->encoding->cache (key_encoding.c, not
under src/): store computed bytes for a (type, identity) pair. -/
def cachePut (c : Cache) (t : EncodingType) (id : Nat) (fp : List Nat) :
    Cache :=
  (t, id, fp) :: c

/-- Modelled from the spec: lib->encoding->clear_cache (key_encoding.c,
not under src/): remove every entry, for every request variant, keyed to
the given identity. -/
def cacheClear : Cache → Nat → Cache
  | [], _ => []
  | e :: rest, id =>
    if e.2.1 = id then cacheClear rest id else e :: cacheClear rest id

/-- The switch in openssl_ec_fingerprint selecting the bytes to hash:
the raw EC point for KEY_ID_PUBKEY_SHA1, the DER SubjectPublicKeyInfo for
KEY_ID_PUBKEY_INFO_SHA1, and failure for every other type. -/
def fingerprintKeyBytes (env : OpenSSLEnv) (ec : ECKey)
    (t : EncodingType) : Option (List Nat) :=
  match t with
  | .KEY_ID_PUBKEY_SHA1 => some (env.i2o_ECPublicKey ec)
  | .KEY_ID_PUBKEY_INFO_SHA1 => some (env.i2d_EC_PUBKEY ec)
  | _ => none

/-- openssl_ec_fingerprint: consult the cache first; on a miss select the
encoding per the switch, hash it with a freshly created SHA-1 hasher
(failing when the hasher is unavailable), store the digest in the cache
and return it.  Returns the fingerprint (none on failure, mirroring the
FALSE returns) together with the updated cache. -/
def openssl_ec_fingerprint (env : OpenSSLEnv) (c : Cache) (ec : ECKey)
    (t : EncodingType) : Option (List Nat) × Cache :=
  match cacheGet c t ec.ptrId with
  | some fp => (some fp, c)
  | none =>
    match fingerprintKeyBytes env ec t with
    | none => (none, c)
    | some key =>
      match env.create_hasher with
      | none => (none, c)
      | some hasher =>
          (some (hasher key), cachePut c t ec.ptrId (hasher key))

/-- public_key_t.get_fingerprint: delegates to openssl_ec_fingerprint on
this->ec. -/
def get_fingerprint (env : OpenSSLEnv) (c : Cache) (ec : ECKey)
    (t : EncodingType) : Option (List Nat) × Cache :=
  openssl_ec_fingerprint env c ec t

/-- public_key_t.get_encoding: only KEY_PUB_SPKI_ASN1_DER is supported;
it returns the i2d_EC_PUBKEY bytes, every other type returns FALSE
(modelled none). -/
def get_encoding (env : OpenSSLEnv) (ec : ECKey) (t : EncodingType) :
    Option (List Nat) :=
  match t with
  | .KEY_PUB_SPKI_ASN1_DER => some (env.i2d_EC_PUBKEY ec)
  | _ => none

/-- The private key object: this->ec (NULL before load or on load
failure) and the reference counter. -/
structure PubKeyObj where
  ec : Option ECKey
  ref : Nat
deriving DecidableEq, Repr

/-- The DBG1 diagnostic emitted by encrypt_. -/
def encryptDiagMsg : String :=
  "EC public key encryption not implemented"

/-- public_key_t.encrypt: not implemented; emits a DBG1 diagnostic and
returns FALSE, leaving the object untouched.  The result pairs the
(boolean, diagnostics) outcome with the unchanged object state. -/
def encrypt_ (this : PubKeyObj) (crypto : List Nat) :
    (Bool × List String) × PubKeyObj :=
  ((false, [encryptDiagMsg]), this)

/-- create_empty: fresh object with no EC key and reference count 1. -/
def create_empty : PubKeyObj :=
  { ec := none, ref := 1 }

/-- public_key_t.get_ref: increment the reference count (ref_get,
modelled from the spec as an atomic increment since refcount helpers live
outside src/) and return this same object, not a copy. -/
def get_ref (this : PubKeyObj) : PubKeyObj :=
  { this with ref := this.ref + 1 }

/-- destroy: decrement the reference count (ref_put, modelled from the
spec: atomic decrement reporting whether the count reached zero, the
helper living outside src/).  When the last reference is dropped and an
EC key is held, clear every fingerprint-cache entry for it and free it;
the freed object is modelled as none.  Otherwise only the count
changes. -/
def destroy (this : PubKeyObj) (c : Cache) : Option PubKeyObj × Cache :=
  if this.ref - 1 = 0 then
    match this.ec with
    | some ec => (none, cacheClear c ec.ptrId)
    | none => (none, c)
  else
    (some { this with ref := this.ref - 1 }, c)

/-- load: create an empty object, decode the blob with d2i_EC_PUBKEY;
on decode failure the object is destroyed and nothing is returned. -/
def load (env : OpenSSLEnv) (blob : List Nat) : Option PubKeyObj :=
  match env.d2i_EC_PUBKEY blob with
  | none => none
  | some ec => some { create_empty with ec := some ec }

/-- n successive get_ref calls. -/
def getRefN : Nat → PubKeyObj → PubKeyObj
  | 0, o => o
  | n + 1, o => getRefN n (get_ref o)

/-- n successive destroy calls, stopping at the freed object. -/
def destroyN : Nat → Option PubKeyObj → Cache → Option PubKeyObj × Cache
  | 0, o, c => (o, c)
  | n + 1, some o, c =>
      match destroy o c with
      | (o1, c1) => destroyN n o1 c1
  | _ + 1, none, c => (none, c)

/-- builder_part_t: the part kind the builder recognizes (with its chunk
payload) plus a constructor for every other kind. -/
inductive BuilderPart where
  | BUILD_BLOB_ASN1_DER (blob : List Nat)
  | otherPart (code : Nat)
deriving DecidableEq, Repr

/-- The private builder: the loaded key, plus the Cancelled flag.
Modelled from the spec: builder_cancel (builder.c, a file of this
repository not under src/) moves the builder to Cancelled, after which
add is a no-op and build returns nothing. -/
structure Builder where
  key : Option PubKeyObj
  cancelled : Bool
deriving DecidableEq, Repr

/-- builder_t.add: while no key is held, a BUILD_BLOB_ASN1_DER part
attempts load and returns (whether or not load succeeded); any other
situation destroys a held key and cancels the builder.  The cache is
threaded because destroy may purge cache entries. -/
def builderAdd (env : OpenSSLEnv) (s : Builder × Cache)
    (part : BuilderPart) : Builder × Cache :=
  if s.1.cancelled then s
  else
    match s.1.key, part with
    | none, .BUILD_BLOB_ASN1_DER blob =>
        ({ s.1 with key := load env blob }, s.2)
    | none, .otherPart _ =>
        ({ key := none, cancelled := true }, s.2)
    | some k, _ =>
        ({ key := none, cancelled := true }, (destroy k s.2).2)

/-- builder_t.build: return the held key; a cancelled builder (whose
build slot was swapped by builder_cancel) returns nothing. -/
def builderBuild (b : Builder) : Option PubKeyObj :=
  if b.cancelled then none else b.key

/-- A whole sequence of add calls, folded left over builder and cache. -/
def addSeq (env : OpenSSLEnv) (s : Builder × Cache)
    (parts : List BuilderPart) : Builder × Cache :=
  parts.foldl (builderAdd env) s

/-- key_type_t: KEY_ECDSA plus every other enum value. -/
inductive KeyType where
  | KEY_ECDSA
  | otherKeyType (code : Nat)
deriving DecidableEq, Repr

/-- openssl_ec_public_key_builder: a fresh builder for KEY_ECDSA, nothing
for any other key type. -/
def openssl_ec_public_key_builder (type : KeyType) : Option Builder :=
  match type with
  | .KEY_ECDSA => some { key := none, cancelled := false }
  | .otherKeyType _ => none

/-- One atomic reference-count operation: a get_ref or a destroy. -/
inductive RefOp where
  | get
  | put
deriving DecidableEq, Repr

/-- Lifecycle state observed across an interleaving: the count, whether
the native release plus cache purge has run, and how many times. -/
structure LifeState where
  ref : Nat
  released : Bool
  releaseCount : Nat
deriving DecidableEq, Repr

/-- One atomic step: get_ref increments; destroy decrements and, exactly
when the count reaches zero, performs the release (cache purge and
EC_KEY_free). -/
def refStep (s : LifeState) : RefOp → LifeState
  | .get => { s with ref := s.ref + 1 }
  | .put =>
    if s.ref - 1 = 0 then
      { ref := 0, released := true, releaseCount := s.releaseCount + 1 }
    else
      { s with ref := s.ref - 1 }

/-- Run a sequence of atomic reference operations. -/
def runOps : LifeState → List RefOp → LifeState
  | s, [] => s
  | s, op :: ops => runOps (refStep s op) ops

/-- Number of get_ref operations in a sequence. -/
def countGet : List RefOp → Nat
  | [] => 0
  | .get :: ops => countGet ops + 1
  | .put :: ops => countGet ops

/-- Number of destroy operations in a sequence. -/
def countPut : List RefOp → Nat
  | [] => 0
  | .get :: ops => countPut ops
  | .put :: ops => countPut ops + 1

/-- The state of a freshly constructed object: one reference, nothing
released. -/
def initLife : LifeState :=
  { ref := 1, released := false, releaseCount := 0 }

/-- Concrete curve group used to evaluate the theorems: degree 16, so a
field element is 2 bytes. -/
def testGroup : ECGroup :=
  { degree := 16 }

/-- Concrete native key used to evaluate the theorems. -/
def testKey : ECKey :=
  { ptrId := 1, group := testGroup }

/-- Concrete instantiation of the external primitives, used to evaluate
the theorems on closed inputs.  Its ECDSA primitive accepts every
(hash, r, s) triple; this is one legal behaviour of the external
ECDSA_do_verify, which the source treats as a black box. -/
def testEnv : OpenSSLEnv where
  hashChunk := fun _ data => some data
  ecdsaVerify := fun _ _ _ _ => true
  d2i_ECDSA_SIG := fun l => if l.length = 0 then none else some (1, 2)
  d2i_EC_PUBKEY := fun blob =>
    if blob.length = 0 then none
    else some { ptrId := blob.length, group := testGroup }
  i2o_ECPublicKey := fun ec => [ec.ptrId]
  i2d_EC_PUBKEY := fun ec => [ec.ptrId, 4]
  create_hasher := some (fun l => 7 :: l)

/-- Variant of the concrete environment whose ECDSA primitive rejects
every triple (a non-matching signature). -/
def testEnvReject : OpenSSLEnv :=
  { testEnv with ecdsaVerify := fun _ _ _ _ => false }

/-- An odd-length signature makes verify_signature fail: openssl_bn_split
rejects it whatever the hash primitive does. -/
theorem verify_signature_of_odd (env : OpenSSLEnv) (ec : ECKey)
    (ht : Nat) (data signature : List Nat)
    (h : signature.length % 2 = 1) :
    verify_signature env ec ht data signature = false := by
  have h2 : ¬ signature.length % 2 = 0 := by omega
  unfold verify_signature
  split
  · rfl
  · simp [chunk2sig, openssl_bn_split, h2]

/-- An even-length signature is split exactly in half, each half read as
a big-endian unsigned integer. -/
theorem chunk2sig_of_even (group : ECGroup) (chunk : List Nat)
    (h : chunk.length % 2 = 0) :
    chunk2sig group chunk =
      some (beNat (chunk.take (chunk.length / 2)),
            beNat (chunk.drop (chunk.length / 2))) := by
  simp [chunk2sig, openssl_bn_split, h]

/-- When the ECDSA primitive rejects everything on this key,
verify_signature cannot return true. -/
theorem verify_signature_of_reject (env : OpenSSLEnv) (ec : ECKey)
    (ht : Nat) (data signature : List Nat)
    (h : ∀ hash r s, env.ecdsaVerify ec hash r s = false) :
    verify_signature env ec ht data signature = false := by
  unfold verify_signature
  split
  · rfl
  · split
    · rfl
    · exact h ..

/-- When the ECDSA primitive rejects everything on this key,
verify_default_signature cannot return true. -/
theorem verify_default_of_reject (env : OpenSSLEnv) (ec : ECKey)
    (data signature : List Nat)
    (h : ∀ hash r s, env.ecdsaVerify ec hash r s = false) :
    verify_default_signature env ec data signature = false := by
  unfold verify_default_signature
  split
  · rfl
  · split
    · rfl
    · exact h ..

/-- A signature whose zero-stripped form does not DER-decode makes
verify_default_signature fail. -/
theorem verify_default_of_badDER (env : OpenSSLEnv) (ec : ECKey)
    (data signature : List Nat)
    (h : env.d2i_ECDSA_SIG (stripZeros signature) = none) :
    verify_default_signature env ec data signature = false := by
  unfold verify_default_signature
  rw [h]

/-- stripZeros ignores any all-zero list prepended to its argument. -/
theorem stripZeros_append (zs s : List Nat) (hz : ∀ b ∈ zs, b = 0) :
    stripZeros (zs ++ s) = stripZeros s := by
  induction zs with
  | nil => rfl
  | cons b rest ih =>
    have hb : b = 0 := hz b (List.mem_cons_self b rest)
    have : stripZeros ((b :: rest) ++ s) = stripZeros (rest ++ s) := by
      simp [stripZeros, hb]
    rw [this, ih (fun x hx => hz x (List.mem_cons_of_mem b hx))]

/-- C1: for every scheme, data chunk and signature chunk, verify on an EC
public key is a total boolean function: an unrecognized scheme yields
false together with the only diagnostic verify ever emits; a malformed
signature encoding (odd-length raw form, or undecodable DER for the
legacy scheme) yields false; a non-matching signature (the native
primitive rejecting every candidate) yields false. -/
theorem C1_verify_contract (env : OpenSSLEnv) (ec : ECKey)
    (scheme : SignatureScheme) (data signature : List Nat) :
    (isSupportedScheme scheme = false →
      verify env ec scheme data signature = (false, [verifyDiagMsg])) ∧
    ((verify env ec scheme data signature).2 ≠ [] ↔
      isSupportedScheme scheme = false) ∧
    (∀ ht, rawNid scheme = some ht → signature.length % 2 = 1 →
      (verify env ec scheme data signature).1 = false) ∧
    (scheme = .SIGN_ECDSA_WITH_SHA1 →
      env.d2i_ECDSA_SIG (stripZeros signature) = none →
      (verify env ec scheme data signature).1 = false) ∧
    ((∀ hash r s, env.ecdsaVerify ec hash r s = false) →
      (verify env ec scheme data signature).1 = false) := by
  cases scheme with
  | otherScheme code =>
    refine ⟨fun _ => rfl,
      by simp [verify, verifyDiagMsg, isSupportedScheme], ?_, ?_, ?_⟩
    · intro ht hht
      simp [rawNid] at hht
    · intro hs
      cases hs
    · intro _
      rfl
  | SIGN_ECDSA_WITH_SHA1 =>
    refine ⟨by simp [isSupportedScheme], by simp [verify, isSupportedScheme],
      ?_, ?_, ?_⟩
    · intro ht hht
      simp [rawNid] at hht
    · intro _ hd
      exact verify_default_of_badDER env ec data signature hd
    · intro h
      exact verify_default_of_reject env ec data signature h
  | SIGN_ECDSA_WITH_NULL =>
    refine ⟨by simp [isSupportedScheme], by simp [verify, isSupportedScheme],
      ?_, ?_, ?_⟩
    · intro ht hht hodd
      exact verify_signature_of_odd env ec NID_undef data signature hodd
    · intro hs
      cases hs
    · intro h
      exact verify_signature_of_reject env ec NID_undef data signature h
  | SIGN_ECDSA_256 =>
    refine ⟨by simp [isSupportedScheme], by simp [verify, isSupportedScheme],
      ?_, ?_, ?_⟩
    · intro ht hht hodd
      exact verify_signature_of_odd env ec NID_sha256 data signature hodd
    · intro hs
      cases hs
    · intro h
      exact verify_signature_of_reject env ec NID_sha256 data signature h
  | SIGN_ECDSA_384 =>
    refine ⟨by simp [isSupportedScheme], by simp [verify, isSupportedScheme],
      ?_, ?_, ?_⟩
    · intro ht hht hodd
      exact verify_signature_of_odd env ec NID_sha384 data signature hodd
    · intro hs
      cases hs
    · intro h
      exact verify_signature_of_reject env ec NID_sha384 data signature h
  | SIGN_ECDSA_521 =>
    refine ⟨by simp [isSupportedScheme], by simp [verify, isSupportedScheme],
      ?_, ?_, ?_⟩
    · intro ht hht hodd
      exact verify_signature_of_odd env ec NID_sha512 data signature hodd
    · intro hs
      cases hs
    · intro h
      exact verify_signature_of_reject env ec NID_sha512 data signature h

/-- C1 witness: the contract evaluated on a closed unrecognized scheme. -/
theorem C1_witness :
    verify testEnv testKey (.otherScheme 99) [] [] =
      (false, [verifyDiagMsg]) :=
  (C1_verify_contract testEnv testKey (.otherScheme 99) [] []).1 rfl

/-- C3 counterexample: the claim that a raw-scheme signature whose length
is not exactly twice the field element length makes verify return false
is refuted.  The key's field elements are 2 bytes, so the claimed
well-formed length is 4; the 2-byte signature is nevertheless split in
half and handed to the ECDSA primitive, and with a primitive that accepts
the resulting (r, s) pair — as the real one can, since a shorter
even-length buffer can decode to the same big-endian components — verify
returns true.  The chunk length is never compared against the field
element length. -/
theorem C3_counterexample :
    ¬ List.length [1, 2] =
        2 * EC_FIELD_ELEMENT_LEN (EC_KEY_get0_group testKey) ∧
    (verify testEnv testKey .SIGN_ECDSA_256 [] [1, 2]).1 = true := by
  exact ⟨by decide, rfl⟩

/-- C3 amended: for every raw-concatenated ECDSA scheme the signature
buffer is split exactly in half into big-endian unsigned components r and
s, and any odd-length signature makes verify return false without a
diagnostic or a crash; the signature length is not compared against
2 × field_element_length of the key's curve — any even-length buffer is
split and handed to the native primitive. -/
theorem C3_raw_scheme_split (env : OpenSSLEnv) (ec : ECKey)
    (scheme : SignatureScheme) (ht : Nat) (data signature : List Nat)
    (hs : rawNid scheme = some ht) :
    verify env ec scheme data signature =
      (verify_signature env ec ht data signature, []) ∧
    (signature.length % 2 = 1 →
      (verify env ec scheme data signature).1 = false) ∧
    (signature.length % 2 = 0 →
      chunk2sig (EC_KEY_get0_group ec) signature =
        some (beNat (signature.take (signature.length / 2)),
              beNat (signature.drop (signature.length / 2))) ∧
      verify_signature env ec ht data signature =
        (match (if ht = NID_undef then some data
                else env.hashChunk ht data) with
         | none => false
         | some hash =>
             env.ecdsaVerify ec hash
               (beNat (signature.take (signature.length / 2)))
               (beNat (signature.drop (signature.length / 2))))) := by
  have hmain : verify env ec scheme data signature =
      (verify_signature env ec ht data signature, []) := by
    cases scheme <;> simp [rawNid] at hs <;> simp [verify, ← hs]
  refine ⟨hmain, ?_, ?_⟩
  · intro hodd
    rw [hmain]
    exact verify_signature_of_odd env ec ht data signature hodd
  · intro heven
    refine ⟨chunk2sig_of_even (EC_KEY_get0_group ec) signature heven, ?_⟩
    unfold verify_signature
    rw [chunk2sig_of_even (EC_KEY_get0_group ec) signature heven]

/-- C3 witness: the amended statement evaluated on a closed raw scheme,
the odd branch on a 3-byte signature and the even branch on a 2-byte
one. -/
theorem C3_witness :
    (verify testEnvReject testKey .SIGN_ECDSA_256 [] [5, 6, 7]).1 =
      false ∧
    chunk2sig (EC_KEY_get0_group testKey) [1, 2] =
      some (beNat [1], beNat [2]) := by
  refine ⟨(C3_raw_scheme_split testEnvReject testKey .SIGN_ECDSA_256
    NID_sha256 [] [5, 6, 7] rfl).2.1 rfl, ?_⟩
  have h := (C3_raw_scheme_split testEnvReject testKey .SIGN_ECDSA_256
    NID_sha256 [] [1, 2] rfl).2.2 rfl
  exact h.1

/-- C4: for the legacy SIGN_ECDSA_WITH_SHA1 scheme, verify strips all
leading zero bytes from the signature before structured DER decode, so
prepending any all-zero list to the signature leaves the verdict (and
diagnostics) unchanged, and a stripped buffer that fails to decode as
SEQUENCE of INTEGER r and INTEGER s makes verify return false. -/
theorem C4_legacy_zero_padding (env : OpenSSLEnv) (ec : ECKey)
    (data zs s : List Nat) (hz : ∀ b ∈ zs, b = 0) :
    verify env ec .SIGN_ECDSA_WITH_SHA1 data (zs ++ s) =
      verify env ec .SIGN_ECDSA_WITH_SHA1 data s ∧
    (env.d2i_ECDSA_SIG (stripZeros s) = none →
      (verify env ec .SIGN_ECDSA_WITH_SHA1 data s).1 = false) := by
  constructor
  · show (verify_default_signature env ec data (zs ++ s), ([] : List String)) =
      (verify_default_signature env ec data s, [])
    unfold verify_default_signature
    rw [stripZeros_append zs s hz]
  · intro hd
    exact verify_default_of_badDER env ec data s hd

/-- C4 witness: two zero bytes prepended to a closed one-byte signature
verify identically to the unprefixed signature. -/
theorem C4_witness :
    verify testEnv testKey .SIGN_ECDSA_WITH_SHA1 [3] ([0, 0] ++ [1]) =
      verify testEnv testKey .SIGN_ECDSA_WITH_SHA1 [3] [1] :=
  (C4_legacy_zero_padding testEnv testKey [3] [0, 0] [1] (by decide)).1

/-- After clearing an identity, no lookup under that identity hits, for
any request variant. -/
theorem cacheGet_clear (c : Cache) (id : Nat) (t : EncodingType) :
    cacheGet (cacheClear c id) t id = none := by
  induction c with
  | nil => rfl
  | cons e rest ih =>
    by_cases he : e.2.1 = id
    · simp [cacheClear, he, ih]
    · simp [cacheClear, he, cacheGet, ih]

/-- A lookup right after storing under the same (type, identity) pair
returns the stored bytes. -/
theorem cacheGet_put (c : Cache) (t : EncodingType) (id : Nat)
    (fp : List Nat) :
    cacheGet (cachePut c t id fp) t id = some fp := by
  simp [cachePut, cacheGet]

/-- C5: destroy on a key whose reference count exceeds 1 only decrements
the count, leaving the native key material, the object and the
fingerprint cache unchanged; destroy on the last reference purges every
fingerprint-cache entry keyed to this key's identity — for every request
variant — and releases the native EC handle, so no lookup under that
identity can observe the old bytes afterwards. -/
theorem C5_destroy_frame (o : PubKeyObj) (c : Cache) :
    (1 < o.ref →
      destroy o c = (some { o with ref := o.ref - 1 }, c)) ∧
    (∀ ec, o.ref = 1 → o.ec = some ec →
      destroy o c = (none, cacheClear c ec.ptrId) ∧
      ∀ t, cacheGet (cacheClear c ec.ptrId) t ec.ptrId = none) := by
  constructor
  · intro h
    have h1 : ¬ o.ref - 1 = 0 := by omega
    simp [destroy, h1]
  · intro ec h1 h2
    refine ⟨by simp [destroy, h1, h2], fun t => cacheGet_clear c ec.ptrId t⟩

/-- C5 witness: both branches evaluated on closed states — a doubly
referenced key keeps its cache entry, a last destroy erases it. -/
theorem C5_witness :
    destroy { ec := some testKey, ref := 2 }
        [(.KEY_ID_PUBKEY_SHA1, 1, [9])] =
      (some { ec := some testKey, ref := 1 },
        [(.KEY_ID_PUBKEY_SHA1, 1, [9])]) ∧
    destroy { ec := some testKey, ref := 1 }
        [(.KEY_ID_PUBKEY_SHA1, 1, [9])] = (none, []) :=
  ⟨(C5_destroy_frame { ec := some testKey, ref := 2 }
      [(.KEY_ID_PUBKEY_SHA1, 1, [9])]).1 (by decide),
   ((C5_destroy_frame { ec := some testKey, ref := 1 }
      [(.KEY_ID_PUBKEY_SHA1, 1, [9])]).2 testKey rfl rfl).1⟩

/-- C6: get_fingerprint consults the cache first and returns a hit with
the cache unchanged; on a miss for a variant with an encoding (SHA-1 of
the raw EC point or of the DER SubjectPublicKeyInfo) and an available
hasher it computes the digest, stores it and returns it; two consecutive
calls with the same request return byte-identical output; a variant
without an encoding returns none on a miss rather than an error. -/
theorem C6_fingerprint_contract (env : OpenSSLEnv) (c : Cache)
    (ec : ECKey) (t : EncodingType) :
    (∀ fp, cacheGet c t ec.ptrId = some fp →
      get_fingerprint env c ec t = (some fp, c)) ∧
    (∀ h key, cacheGet c t ec.ptrId = none →
      env.create_hasher = some h →
      fingerprintKeyBytes env ec t = some key →
      get_fingerprint env c ec t =
        (some (h key), cachePut c t ec.ptrId (h key))) ∧
    (∀ b c1, get_fingerprint env c ec t = (some b, c1) →
      (get_fingerprint env c1 ec t).1 = some b) ∧
    (t ≠ .KEY_ID_PUBKEY_SHA1 → t ≠ .KEY_ID_PUBKEY_INFO_SHA1 →
      cacheGet c t ec.ptrId = none →
      get_fingerprint env c ec t = (none, c)) := by
  refine ⟨?_, ?_, ?_, ?_⟩
  · intro fp hfp
    simp [get_fingerprint, openssl_ec_fingerprint, hfp]
  · intro h key hmiss hh hkey
    simp [get_fingerprint, openssl_ec_fingerprint, hmiss, hh, hkey]
  · intro b c1 hcall
    rcases hc : cacheGet c t ec.ptrId with _ | fp
    · rcases hk : fingerprintKeyBytes env ec t with _ | key
      · simp [get_fingerprint, openssl_ec_fingerprint, hc, hk] at hcall
      · rcases hh : env.create_hasher with _ | hasher
        · simp [get_fingerprint, openssl_ec_fingerprint, hc, hk, hh]
            at hcall
        · simp [get_fingerprint, openssl_ec_fingerprint, hc, hk, hh]
            at hcall
          obtain ⟨hb, hc1⟩ := hcall
          simp [get_fingerprint, openssl_ec_fingerprint, ← hc1, hb,
            cacheGet_put]
    · simp [get_fingerprint, openssl_ec_fingerprint, hc] at hcall
      obtain ⟨hb, hc1⟩ := hcall
      simp [get_fingerprint, openssl_ec_fingerprint, ← hc1, hc, hb]
  · intro h1 h2 hmiss
    have hk : fingerprintKeyBytes env ec t = none := by
      cases t with
      | KEY_ID_PUBKEY_SHA1 => exact absurd rfl h1
      | KEY_ID_PUBKEY_INFO_SHA1 => exact absurd rfl h2
      | KEY_PUB_SPKI_ASN1_DER => rfl
      | otherEncoding code => rfl
    simp [get_fingerprint, openssl_ec_fingerprint, hmiss, hk]

/-- C6 witness: a closed cache miss computes, stores and returns the
SHA-1 digest of the raw point encoding, and a closed unsupported variant
returns none. -/
theorem C6_witness :
    get_fingerprint testEnv [] testKey .KEY_ID_PUBKEY_SHA1 =
      (some [7, 1], [(.KEY_ID_PUBKEY_SHA1, 1, [7, 1])]) ∧
    get_fingerprint testEnv [] testKey (.otherEncoding 42) =
      (none, []) :=
  ⟨(C6_fingerprint_contract testEnv [] testKey .KEY_ID_PUBKEY_SHA1).2.1
      (fun l => 7 :: l) [1] rfl rfl rfl,
   (C6_fingerprint_contract testEnv [] testKey (.otherEncoding 42)).2.2.2
      (by decide) (by decide) rfl⟩

/-- C8: get_encoding returns the DER SubjectPublicKeyInfo bytes for
KEY_PUB_SPKI_ASN1_DER and none for every other request variant. -/
theorem C8_get_encoding_contract (env : OpenSSLEnv) (ec : ECKey)
    (t : EncodingType) :
    get_encoding env ec t =
      if t = .KEY_PUB_SPKI_ASN1_DER then some (env.i2d_EC_PUBKEY ec)
      else none := by
  cases t <;> simp [get_encoding]

/-- C9: encrypt returns false with its diagnostic and leaves the key
object unchanged, for every input chunk. -/
theorem C9_encrypt_contract (this : PubKeyObj) (crypto : List Nat) :
    (encrypt_ this crypto).1.1 = false ∧
    (encrypt_ this crypto).1.2 = [encryptDiagMsg] ∧
    (encrypt_ this crypto).2 = this :=
  ⟨rfl, rfl, rfl⟩

/-- C2 counterexample: the claim that once a first add with a recognized
part kind has been made — whether construction succeeded or failed — any
subsequent add cancels the builder is refuted.  A first ASN.1 add whose
blob fails to decode leaves the builder accumulating with no key; a
second ASN.1 add with a decodable blob is honoured, constructs a key, and
build returns it: two construction attempts were honoured and build does
not return nothing. -/
theorem C2_counterexample :
    (builderAdd testEnv
      (builderAdd testEnv ({ key := none, cancelled := false }, [])
        (.BUILD_BLOB_ASN1_DER []))
      (.BUILD_BLOB_ASN1_DER [1])).1.cancelled = false ∧
    builderBuild (builderAdd testEnv
      (builderAdd testEnv ({ key := none, cancelled := false }, [])
        (.BUILD_BLOB_ASN1_DER []))
      (.BUILD_BLOB_ASN1_DER [1])).1 =
      some { ec := some testKey, ref := 1 } :=
  ⟨rfl, rfl⟩

/-- Appending schedules of add calls composes addSeq. -/
theorem addSeq_append (env : OpenSSLEnv) (s : Builder × Cache)
    (l1 l2 : List BuilderPart) :
    addSeq env s (l1 ++ l2) = addSeq env (addSeq env s l1) l2 := by
  simp [addSeq]

/-- A cancelled builder absorbs every further add call. -/
theorem addSeq_cancelled (env : OpenSSLEnv) (parts : List BuilderPart) :
    ∀ (b : Builder) (c : Cache), b.cancelled = true →
      addSeq env (b, c) parts = (b, c) := by
  induction parts with
  | nil => intro b c _; rfl
  | cons p rest ih =>
    intro b c h
    show addSeq env (builderAdd env (b, c) p) rest = (b, c)
    rw [show builderAdd env (b, c) p = (b, c) by simp [builderAdd, h]]
    exact ih b c h

/-- Failed construction attempts leave the builder accumulating with no
key and the cache untouched. -/
theorem addSeq_allFailed (env : OpenSSLEnv) (parts : List BuilderPart)
    (h : ∀ p ∈ parts, ∃ b2, p = BuilderPart.BUILD_BLOB_ASN1_DER b2 ∧
      load env b2 = none) :
    ∀ c : Cache,
      addSeq env ({ key := none, cancelled := false }, c) parts =
        ({ key := none, cancelled := false }, c) := by
  induction parts with
  | nil => intro c; rfl
  | cons p rest ih =>
    intro c
    obtain ⟨b2, hp, hb⟩ := h p (List.mem_cons_self p rest)
    subst hp
    show addSeq env
      (builderAdd env ({ key := none, cancelled := false }, c)
        (.BUILD_BLOB_ASN1_DER b2)) rest = _
    rw [show builderAdd env ({ key := none, cancelled := false }, c)
        (.BUILD_BLOB_ASN1_DER b2) =
        ({ key := none, cancelled := false }, c) by
      simp [builderAdd, hb]]
    exact ih (fun q hq => h q (List.mem_cons_of_mem _ hq)) c

/-- After a successful construction, any nonempty continuation of add
calls leaves the builder cancelled for good. -/
theorem addSeq_after_success (env : OpenSSLEnv) (k : PubKeyObj)
    (c : Cache) (b : Builder) (hb : b.key = some k)
    (hc : b.cancelled = false) (p : BuilderPart)
    (rest : List BuilderPart) :
    (addSeq env (b, c) (p :: rest)).1 =
      { key := none, cancelled := true } := by
  show (addSeq env (builderAdd env (b, c) p) rest).1 = _
  have h1 : builderAdd env (b, c) p =
      ({ key := none, cancelled := true }, (destroy k c).2) := by
    cases p <;> simp [builderAdd, hb, hc]
  rw [h1, addSeq_cancelled env rest _ (destroy k c).2 rfl]

/-- A final accumulating-with-no-key state means every add so far was a
recognized part whose construction failed. -/
theorem addSeq_clean (env : OpenSSLEnv) (parts : List BuilderPart) :
    ∀ c : Cache,
      (addSeq env ({ key := none, cancelled := false }, c) parts).1 =
        { key := none, cancelled := false } →
      ∀ p ∈ parts, ∃ b2, p = BuilderPart.BUILD_BLOB_ASN1_DER b2 ∧
        load env b2 = none := by
  induction parts with
  | nil =>
    intro c _ p hp
    cases hp
  | cons q rest ih =>
    intro c h p hp
    cases q with
    | otherPart m =>
      exfalso
      have h2 : addSeq env ({ key := none, cancelled := false }, c)
          (BuilderPart.otherPart m :: rest) =
          ({ key := none, cancelled := true }, c) := by
        show addSeq env
          (builderAdd env ({ key := none, cancelled := false }, c)
            (.otherPart m)) rest = _
        exact addSeq_cancelled env rest _ c rfl
      rw [h2] at h
      simp at h
    | BUILD_BLOB_ASN1_DER bl =>
      rcases hl : load env bl with _ | k
      · have h1 : builderAdd env ({ key := none, cancelled := false }, c)
            (.BUILD_BLOB_ASN1_DER bl) =
            ({ key := none, cancelled := false }, c) := by
          simp [builderAdd, hl]
        have h2 : (addSeq env ({ key := none, cancelled := false }, c)
            rest).1 = { key := none, cancelled := false } := by
          have e : addSeq env ({ key := none, cancelled := false }, c)
              (BuilderPart.BUILD_BLOB_ASN1_DER bl :: rest) =
              addSeq env ({ key := none, cancelled := false }, c) rest := by
            show addSeq env
              (builderAdd env ({ key := none, cancelled := false }, c)
                (.BUILD_BLOB_ASN1_DER bl)) rest = _
            rw [h1]
          rw [← e]
          exact h
        rcases List.mem_cons.mp hp with rfl | hp2
        · exact ⟨bl, rfl, hl⟩
        · exact ih c h2 p hp2
      · exfalso
        have h1 : builderAdd env ({ key := none, cancelled := false }, c)
            (.BUILD_BLOB_ASN1_DER bl) =
            ({ key := some k, cancelled := false }, c) := by
          simp [builderAdd, hl]
        cases rest with
        | nil =>
          have h2 : addSeq env ({ key := none, cancelled := false }, c)
              [BuilderPart.BUILD_BLOB_ASN1_DER bl] =
              ({ key := some k, cancelled := false }, c) := h1
          rw [h2] at h
          simp at h
        | cons r rs =>
          have h3 := addSeq_after_success env k c
            { key := some k, cancelled := false } rfl rfl r rs
          have h4 : addSeq env ({ key := none, cancelled := false }, c)
              (BuilderPart.BUILD_BLOB_ASN1_DER bl :: r :: rs) =
              addSeq env ({ key := some k, cancelled := false }, c)
                (r :: rs) := by
            show addSeq env
              (builderAdd env ({ key := none, cancelled := false }, c)
                (.BUILD_BLOB_ASN1_DER bl)) (r :: rs) = _
            rw [h1]
          rw [h4, h3] at h
          simp at h

/-- C2 amended: at most one successful construction attempt is ever
honoured.  Step-wise: once an add has constructed a key, any subsequent
add — and any add with an unrecognized part kind — destroys the held
object and moves the builder to Cancelled; a cancelled builder ignores
add and build returns nothing from it; build returns the held key
exactly when the builder is not cancelled; an add whose construction
attempt failed leaves the builder accumulating with no key, and a later
add with the recognized part kind is attempted again.  Trace-wise: over
every sequence of add calls on a fresh builder, build returns a key
exactly when the final add of the sequence constructed it and every
earlier add was a recognized part whose construction failed — so the
honoured construction attempt, when there is one, is the unique
successful one and nothing follows it. -/
theorem C2_builder_contract (env : OpenSSLEnv) (b : Builder) (c : Cache)
    (part : BuilderPart) (blob : List Nat) :
    (b.cancelled = true → builderAdd env (b, c) part = (b, c)) ∧
    (b.cancelled = true → builderBuild b = none) ∧
    (∀ k, b.cancelled = false → b.key = some k →
      builderAdd env (b, c) part =
        ({ key := none, cancelled := true }, (destroy k c).2)) ∧
    (∀ m, b.cancelled = false → b.key = none → part = .otherPart m →
      builderAdd env (b, c) part =
        ({ key := none, cancelled := true }, c)) ∧
    (b.cancelled = false → b.key = none →
      builderAdd env (b, c) (.BUILD_BLOB_ASN1_DER blob) =
        ({ b with key := load env blob }, c)) ∧
    (b.cancelled = false → builderBuild b = b.key) ∧
    (∀ (parts : List BuilderPart) (k : PubKeyObj),
      builderBuild
          (addSeq env ({ key := none, cancelled := false }, c) parts).1 =
        some k ↔
      ∃ qs bl, parts = qs ++ [BuilderPart.BUILD_BLOB_ASN1_DER bl] ∧
        load env bl = some k ∧
        ∀ p ∈ qs, ∃ b2, p = BuilderPart.BUILD_BLOB_ASN1_DER b2 ∧
          load env b2 = none) := by
  refine ⟨?_, ?_, ?_, ?_, ?_, ?_, ?_⟩
  · intro h
    simp [builderAdd, h]
  · intro h
    simp [builderBuild, h]
  · intro k h hk
    cases part <;> simp [builderAdd, h, hk]
  · intro m h hk hp
    simp [builderAdd, h, hk, hp]
  · intro h hk
    simp [builderAdd, h, hk]
  · intro h
    simp [builderBuild, h]
  · intro parts k
    constructor
    · intro h
      rcases List.eq_nil_or_concat' parts with rfl | ⟨front, last, rfl⟩
      · simp [addSeq, builderBuild] at h
      · have hsplit : addSeq env ({ key := none, cancelled := false }, c)
            (front ++ [last]) =
            builderAdd env
              (addSeq env ({ key := none, cancelled := false }, c) front)
              last := by
          rw [addSeq_append]
          rfl
        rcases hsf : addSeq env ({ key := none, cancelled := false }, c)
          front with ⟨bf, cf⟩
        rcases bf with ⟨bfk, bfc⟩
        rw [hsplit, hsf] at h
        cases bfc with
        | true =>
          exfalso
          have habs : builderAdd env (⟨bfk, true⟩, cf) last =
              (⟨bfk, true⟩, cf) := by
            simp [builderAdd]
          rw [habs] at h
          simp [builderBuild] at h
        | false =>
          cases bfk with
          | some k0 =>
            exfalso
            have habs : builderAdd env (⟨some k0, false⟩, cf) last =
                ({ key := none, cancelled := true },
                  (destroy k0 cf).2) := by
              cases last <;> simp [builderAdd]
            rw [habs] at h
            simp [builderBuild] at h
          | none =>
            cases last with
            | otherPart m =>
              exfalso
              have habs : builderAdd env (⟨none, false⟩, cf)
                  (.otherPart m) =
                  ({ key := none, cancelled := true }, cf) := by
                simp [builderAdd]
              rw [habs] at h
              simp [builderBuild] at h
            | BUILD_BLOB_ASN1_DER bl =>
              have hstep : builderAdd env (⟨none, false⟩, cf)
                  (.BUILD_BLOB_ASN1_DER bl) =
                  ({ key := load env bl, cancelled := false }, cf) := by
                simp [builderAdd]
              rw [hstep] at h
              simp [builderBuild] at h
              refine ⟨front, bl, rfl, h, ?_⟩
              have hclean : (addSeq env
                  ({ key := none, cancelled := false }, c) front).1 =
                  { key := none, cancelled := false } := by
                rw [hsf]
              exact addSeq_clean env front c hclean
    · rintro ⟨qs, bl, rfl, hk, hfail⟩
      have h1 := addSeq_allFailed env qs hfail c
      have h2 : addSeq env ({ key := none, cancelled := false }, c)
          (qs ++ [BuilderPart.BUILD_BLOB_ASN1_DER bl]) =
          ({ key := some k, cancelled := false }, c) := by
        rw [addSeq_append, h1]
        show builderAdd env ({ key := none, cancelled := false }, c)
          (.BUILD_BLOB_ASN1_DER bl) = _
        simp [builderAdd, hk]
      rw [h2]
      simp [builderBuild]

/-- C2 witness: on closed inputs, a second add after a successful
construction destroys the held key and cancels, and the trace form
returns the constructed key for a failed add followed by a successful
one. -/
theorem C2_witness :
    builderAdd testEnv
      ({ key := some { ec := some testKey, ref := 1 },
         cancelled := false }, [])
      (.BUILD_BLOB_ASN1_DER []) =
      ({ key := none, cancelled := true }, []) ∧
    builderBuild
        (addSeq testEnv ({ key := none, cancelled := false }, [])
          [.BUILD_BLOB_ASN1_DER [], .BUILD_BLOB_ASN1_DER [1]]).1 =
      some { ec := some testKey, ref := 1 } := by
  refine ⟨?_, ?_⟩
  · exact (C2_builder_contract testEnv
      { key := some { ec := some testKey, ref := 1 }, cancelled := false }
      [] (.BUILD_BLOB_ASN1_DER []) []).2.2.1
      { ec := some testKey, ref := 1 } rfl rfl
  · refine ((C2_builder_contract testEnv
      { key := none, cancelled := false } [] (.BUILD_BLOB_ASN1_DER []) []
      ).2.2.2.2.2.2
      [.BUILD_BLOB_ASN1_DER [], .BUILD_BLOB_ASN1_DER [1]]
      { ec := some testKey, ref := 1 }).mpr
      ⟨[.BUILD_BLOB_ASN1_DER []], [1], rfl, rfl, ?_⟩
    intro p hp
    rw [List.mem_singleton.mp hp]
    exact ⟨[], rfl, rfl⟩

/-- getRefN only increments the reference count, by exactly its first
argument. -/
theorem getRefN_spec (n : Nat) : ∀ o : PubKeyObj,
    getRefN n o = { o with ref := o.ref + n } := by
  induction n with
  | zero => intro o; rfl
  | succ m ih =>
    intro o
    show getRefN m (get_ref o) = { o with ref := o.ref + (m + 1) }
    rw [ih (get_ref o)]
    show ({ o with ref := o.ref + 1 + m } : PubKeyObj) = _
    rw [Nat.add_assoc, Nat.add_comm 1 m]

/-- While more references than destroy calls remain, destroyN only
decrements the count, by exactly the number of calls. -/
theorem destroyN_live (k : Nat) : ∀ (o : PubKeyObj) (c : Cache),
    k < o.ref →
    destroyN k (some o) c = (some { o with ref := o.ref - k }, c) := by
  induction k with
  | zero => intro o c _; rfl
  | succ m ih =>
    intro o c hk
    have h1 : ¬ o.ref - 1 = 0 := by omega
    show destroyN (m + 1) (some o) c = _
    unfold destroyN
    simp only [destroy, h1, if_false]
    rw [ih { o with ref := o.ref - 1 } c (by simp; omega)]
    have : o.ref - 1 - m = o.ref - (m + 1) := by omega
    simp [this]

/-- Destroying an object exactly ref-count-many times drops the last
reference, purges the cache for its key and frees the handle. -/
theorem destroyN_exact (n : Nat) : ∀ (o : PubKeyObj) (c : Cache)
    (ec : ECKey), o.ref = n + 1 → o.ec = some ec →
    destroyN (n + 1) (some o) c = (none, cacheClear c ec.ptrId) := by
  induction n with
  | zero =>
    intro o c ec h1 h2
    show destroyN 1 (some o) c = _
    unfold destroyN
    simp [destroy, h1, h2]
    rfl
  | succ m ih =>
    intro o c ec h1 h2
    have h3 : ¬ o.ref - 1 = 0 := by omega
    show destroyN (m + 1 + 1) (some o) c = _
    unfold destroyN
    simp only [destroy, h3, if_false]
    exact ih { o with ref := o.ref - 1 } c ec (by simp; omega) h2

/-- C10: a loaded key object starts with reference count exactly 1 (as
does every object out of create_empty); get_ref increments the count on
the same object, copying nothing; after n get_ref calls the count is
n + 1, up to n destroy calls only decrement it and leave the cache
alone, and the (n + 1)-th destroy performs the single release of the
native handle together with the purge of the cache entries for its
identity. -/
theorem C10_refcount_lifecycle (env : OpenSSLEnv) (blob : List Nat)
    (o : PubKeyObj) (c : Cache) (n : Nat)
    (hload : load env blob = some o) :
    create_empty.ref = 1 ∧
    o.ref = 1 ∧
    (∀ p : PubKeyObj, get_ref p = { p with ref := p.ref + 1 }) ∧
    (getRefN n o).ref = n + 1 ∧
    (getRefN n o).ec = o.ec ∧
    (∀ k, k ≤ n →
      destroyN k (some (getRefN n o)) c =
        (some { o with ref := n + 1 - k }, c)) ∧
    (∀ ec, o.ec = some ec →
      destroyN (n + 1) (some (getRefN n o)) c =
        (none, cacheClear c ec.ptrId)) := by
  have href : o.ref = 1 := by
    unfold load at hload
    rcases hd : env.d2i_EC_PUBKEY blob with _ | k <;> rw [hd] at hload
    · cases hload
    · cases hload
      rfl
  have hN : getRefN n o = { o with ref := n + 1 } := by
    rw [getRefN_spec n o, href, Nat.add_comm]
  refine ⟨rfl, href, fun p => rfl, by rw [hN], by rw [hN], ?_, ?_⟩
  · intro k hk
    rw [hN, destroyN_live k { o with ref := n + 1 } c (by simp; omega)]
  · intro ec hec
    rw [hN]
    exact destroyN_exact n { o with ref := n + 1 } c ec rfl (by simp [hec])

/-- C10 witness: a closed load, two get_ref calls, two harmless destroy
calls and a third, releasing destroy. -/
theorem C10_witness :
    destroyN 2 (some (getRefN 2 { ec := some testKey, ref := 1 })) [] =
      (some { ec := some testKey, ref := 1 }, []) ∧
    destroyN 3 (some (getRefN 2 { ec := some testKey, ref := 1 })) [] =
      (none, []) :=
  ⟨(C10_refcount_lifecycle testEnv [1] { ec := some testKey, ref := 1 }
      [] 2 rfl).2.2.2.2.2.1 2 (by decide),
   (C10_refcount_lifecycle testEnv [1] { ec := some testKey, ref := 1 }
      [] 2 rfl).2.2.2.2.2.2 testKey rfl⟩

/-- countGet distributes over append. -/
theorem countGet_append (l1 l2 : List RefOp) :
    countGet (l1 ++ l2) = countGet l1 + countGet l2 := by
  induction l1 with
  | nil => simp [countGet]
  | cons op rest ih => cases op <;> simp [countGet, ih] <;> omega

/-- countPut distributes over append. -/
theorem countPut_append (l1 l2 : List RefOp) :
    countPut (l1 ++ l2) = countPut l1 + countPut l2 := by
  induction l1 with
  | nil => simp [countPut]
  | cons op rest ih => cases op <;> simp [countPut, ih] <;> omega

/-- Running an appended schedule runs the pieces in order. -/
theorem runOps_append (l1 l2 : List RefOp) : ∀ s : LifeState,
    runOps s (l1 ++ l2) = runOps (runOps s l1) l2 := by
  induction l1 with
  | nil => intro s; rfl
  | cons op rest ih => intro s; exact ih (refStep s op)

/-- Core invariant: as long as every prefix of the schedule keeps the
count positive (destroys strictly below the starting count plus the
acquires), no release fires and the count is exactly the running
balance. -/
theorem runOps_counts (ops : List RefOp) : ∀ s : LifeState,
    (∀ n, n ≤ ops.length →
      countPut (ops.take n) < s.ref + countGet (ops.take n)) →
    (runOps s ops).ref = s.ref + countGet ops - countPut ops ∧
    (runOps s ops).released = s.released ∧
    (runOps s ops).releaseCount = s.releaseCount := by
  induction ops with
  | nil =>
    intro s h
    exact ⟨by simp [runOps, countGet, countPut], rfl, rfl⟩
  | cons op rest ih =>
    intro s h
    cases op with
    | get =>
      have hrest := ih { s with ref := s.ref + 1 } (fun n hn => by
        have h2 := h (n + 1) (by simp only [List.length_cons]; omega)
        simp only [List.take_succ_cons] at h2
        have e1 : countPut (RefOp.get :: rest.take n) =
            countPut (rest.take n) := rfl
        have e2 : countGet (RefOp.get :: rest.take n) =
            countGet (rest.take n) + 1 := rfl
        rw [e1, e2] at h2
        show countPut (rest.take n) < s.ref + 1 + countGet (rest.take n)
        omega)
      refine ⟨?_, hrest.2.1, hrest.2.2⟩
      show (runOps { s with ref := s.ref + 1 } rest).ref =
        s.ref + countGet (.get :: rest) - countPut (.get :: rest)
      rw [hrest.1]
      have e1 : countPut (RefOp.get :: rest) = countPut rest := rfl
      have e2 : countGet (RefOp.get :: rest) = countGet rest + 1 := rfl
      rw [e1, e2]
      show s.ref + 1 + countGet rest - countPut rest =
        s.ref + (countGet rest + 1) - countPut rest
      omega
    | put =>
      have hs2 : 2 ≤ s.ref := by
        have h1 := h 1 (by simp only [List.length_cons]; omega)
        have e : countPut ((RefOp.put :: rest).take 1) <
            s.ref + countGet ((RefOp.put :: rest).take 1) := h1
        have e1 : countPut ((RefOp.put :: rest).take 1) = 1 := rfl
        have e2 : countGet ((RefOp.put :: rest).take 1) = 0 := rfl
        rw [e1, e2] at e
        omega
      have hstep : refStep s .put = { s with ref := s.ref - 1 } := by
        unfold refStep
        have hne : ¬ s.ref - 1 = 0 := by omega
        simp [hne]
      have hrest := ih { s with ref := s.ref - 1 } (fun n hn => by
        have h2 := h (n + 1) (by simp only [List.length_cons]; omega)
        simp only [List.take_succ_cons] at h2
        have e1 : countPut (RefOp.put :: rest.take n) =
            countPut (rest.take n) + 1 := rfl
        have e2 : countGet (RefOp.put :: rest.take n) =
            countGet (rest.take n) := rfl
        rw [e1, e2] at h2
        show countPut (rest.take n) < s.ref - 1 + countGet (rest.take n)
        omega)
      have hgoal : runOps s (.put :: rest) =
          runOps { s with ref := s.ref - 1 } rest := by
        show runOps (refStep s .put) rest = _
        rw [hstep]
      refine ⟨?_, ?_, ?_⟩
      · rw [hgoal, hrest.1]
        have e1 : countPut (RefOp.put :: rest) = countPut rest + 1 := rfl
        have e2 : countGet (RefOp.put :: rest) = countGet rest := rfl
        rw [e1, e2]
        show s.ref - 1 + countGet rest - countPut rest =
          s.ref + countGet rest - (countPut rest + 1)
        omega
      · rw [hgoal]
        exact hrest.2.1
      · rw [hgoal]
        exact hrest.2.2

/-- C7: under every interleaving of N paired get_ref/destroy calls plus
the final owner's destroy — every schedule of atomic operations in which
no proper prefix has more destroys than acquires — the release of the
native resources and the cache purge happen exactly once, the count ends
at zero, and no prefix of the schedule before its final operation
observes a released handle. -/
theorem C7_interleaved_release (ops : List RefOp) (N : Nat)
    (hG : countGet ops = N) (hP : countPut ops = N + 1)
    (hpre : ∀ n, n < ops.length →
      countPut (ops.take n) ≤ countGet (ops.take n)) :
    (runOps initLife ops).releaseCount = 1 ∧
    (runOps initLife ops).released = true ∧
    (runOps initLife ops).ref = 0 ∧
    ∀ n, n < ops.length →
      (runOps initLife (ops.take n)).released = false ∧
      (runOps initLife (ops.take n)).releaseCount = 0 := by
  rcases List.eq_nil_or_concat' ops with hnil | ⟨front, last, hops⟩
  · rw [hnil] at hP
    exact (Nat.succ_ne_zero N hP.symm).elim
  subst hops
  have hlen : (front ++ [last]).length = front.length + 1 := by
    simp
  have hfrontpre : ∀ n, n ≤ front.length →
      countPut (front.take n) < initLife.ref + countGet (front.take n) := by
    intro n hn
    have htake : (front ++ [last]).take n = front.take n :=
      List.take_append_of_le_length hn
    have hlt : n < (front ++ [last]).length := by omega
    have h1 := hpre n hlt
    rw [htake] at h1
    show countPut (front.take n) < 1 + countGet (front.take n)
    omega
  have hrun := runOps_counts front initLife hfrontpre
  have hfrontfull := hpre front.length (by omega)
  have htakefull : (front ++ [last]).take front.length = front :=
    List.take_left front [last]
  rw [htakefull] at hfrontfull
  have hprefix : ∀ n, n < (front ++ [last]).length →
      (runOps initLife ((front ++ [last]).take n)).released = false ∧
      (runOps initLife ((front ++ [last]).take n)).releaseCount = 0 := by
    intro n hn
    have hn2 : n ≤ front.length := by omega
    have htaken : (front ++ [last]).take n = front.take n :=
      List.take_append_of_le_length hn2
    rw [htaken]
    have hc := runOps_counts (front.take n) initLife (fun m hm => by
      have hmn : m ≤ n := by
        have : (front.take n).length = n := by
          simp [List.length_take]
          omega
        omega
      have htt : (front.take n).take m = front.take m := by
        rw [List.take_take]
        congr 1
        omega
      rw [htt]
      exact hfrontpre m (by omega))
    exact ⟨hc.2.1, hc.2.2⟩
  cases last with
  | get =>
    exfalso
    have e1 : countGet (front ++ [RefOp.get]) = countGet front + 1 := by
      rw [countGet_append]
      rfl
    have e2 : countPut (front ++ [RefOp.get]) = countPut front := by
      rw [countPut_append]
      rfl
    omega
  | put =>
    have e1 : countGet (front ++ [RefOp.put]) = countGet front := by
      rw [countGet_append]
      rfl
    have e2 : countPut (front ++ [RefOp.put]) = countPut front + 1 := by
      rw [countPut_append]
      rfl
    have href : (runOps initLife front).ref = 1 := by
      rw [hrun.1]
      show 1 + countGet front - countPut front = 1
      omega
    have hfull : runOps initLife (front ++ [RefOp.put]) =
        refStep (runOps initLife front) .put := by
      rw [runOps_append]
      rfl
    have hfin : refStep (runOps initLife front) .put =
        { ref := 0, released := true,
          releaseCount := (runOps initLife front).releaseCount + 1 } := by
      simp [refStep, href]
    refine ⟨?_, ?_, ?_, hprefix⟩
    · rw [hfull, hfin]
      show (runOps initLife front).releaseCount + 1 = 1
      rw [hrun.2.2]
      rfl
    · rw [hfull, hfin]
    · rw [hfull, hfin]

/-- C7 witness: the closed schedule get_ref, destroy, destroy (one
paired acquire/release plus the owner's final destroy) releases exactly
once, at its last operation. -/
theorem C7_witness :
    (runOps initLife [RefOp.get, RefOp.put, RefOp.put]).releaseCount =
      1 ∧
    (runOps initLife [RefOp.get, RefOp.put, RefOp.put]).released =
      true ∧
    (runOps initLife [RefOp.get, RefOp.put, RefOp.put]).ref = 0 ∧
    ∀ n, n < [RefOp.get, RefOp.put, RefOp.put].length →
      (runOps initLife
        ([RefOp.get, RefOp.put, RefOp.put].take n)).released = false ∧
      (runOps initLife
        ([RefOp.get, RefOp.put, RefOp.put].take n)).releaseCount = 0 :=
  C7_interleaved_release [RefOp.get, RefOp.put, RefOp.put] 1 rfl rfl
    (by decide)

end StrongswanEC
